import Mathlib

/-!
Verification of `osmium::geom::Tile` (src/contrib/libosmium/osmium/geom/tile.hpp).

A `Tile` holds three `uint32_t` fields `x`, `y`, `z`.  We embed the fields as
natural numbers; all constructions in the source keep them within `uint32`
range, and every statement below is insensitive to the extra range.

The planar (Mercator) coordinates produced by the external projection are
embedded as exact rationals; the C++ `int32_t(double)` cast truncates toward
zero, which we embed faithfully as `ratTrunc`.
-/

namespace OsmiumGeom

/-- A tile in the usual Mercator projection: x/y coordinates and zoom level
(tile.hpp lines 61-70). -/
structure Tile where
  x : Nat
  y : Nat
  z : Nat
deriving DecidableEq, Repr

/-- `detail::restrict_to_range` (tile.hpp lines 49-54), instantiated at
`int32_t` and embedded over `Int`. -/
def restrict_to_range (value lo hi : Int) : Int :=
  if value < lo then lo
  else if value > hi then hi
  else value

/-- Truncation toward zero of a rational, the semantics of the C++
`int32_t(double)` conversion for in-range values. -/
def ratTrunc (q : ℚ) : Int :=
  if 0 ≤ q then ⌊q⌋ else ⌈q⌉

/-- Modelled from the spec: the external Mercator projection maps valid
locations into the symmetric square `[-M, M] × [-M, M]`; `M` is
`detail::max_coordinate_epsg3857` from the (external) projection header. -/
def max_coordinate_epsg3857 : ℚ := 20037508.34

/-- The explicit-coordinate constructor `Tile(uint32_t zoom, uint32_t tx,
uint32_t ty)` (tile.hpp lines 80-84): stores the arguments verbatim
(`x(tx), y(ty), z(zoom)`); the asserted preconditions are not enforced. -/
def Tile.ofCoords (zoom tx ty : Nat) : Tile :=
  { x := tx, y := ty, z := zoom }

/-- The point-based constructor `Tile(uint32_t zoom, const Location&)`
(tile.hpp lines 94-103), with the projection step abstracted away: `cx`, `cy`
are the planar coordinates `lonlat_to_mercator(location)` of the (valid)
location.  `n = 1 << zoom`, `scale = max_coordinate_epsg3857 * 2 / n`, then
each index is truncated to `int32_t` and clamped into `[0, n-1]`. -/
def Tile.fromLocation (zoom : Nat) (cx cy : ℚ) : Tile :=
  let n : Int := 2 ^ zoom
  let scale : ℚ := max_coordinate_epsg3857 * 2 / (n : ℚ)
  { x := (restrict_to_range (ratTrunc ((cx + max_coordinate_epsg3857) / scale)) 0 (n - 1)).toNat
    y := (restrict_to_range (ratTrunc ((max_coordinate_epsg3857 - cy) / scale)) 0 (n - 1)).toNat
    z := zoom }

/-- The spec's own formula for the point-based constructor, for comparison
with `Tile.fromLocation`: raw column `⌊(px + M) / scale⌋` and raw row
`⌊(M - py) / scale⌋` with `n = 2^zoom` and `scale = 2*M/n`, each clamped
into `[0, n-1]` (spec, section 4.1, construction from a geographic point). -/
def Tile.fromLocationSpec (zoom : Nat) (px py : ℚ) : Tile :=
  let n : Int := 2 ^ zoom
  let scale : ℚ := 2 * max_coordinate_epsg3857 / (n : ℚ)
  { x := (restrict_to_range ⌊(px + max_coordinate_epsg3857) / scale⌋ 0 (n - 1)).toNat
    y := (restrict_to_range ⌊(max_coordinate_epsg3857 - py) / scale⌋ 0 (n - 1)).toNat
    z := zoom }

/-- `Tile::valid()` (tile.hpp lines 110-116): false when `z > 30`, otherwise
compares `x` and `y` against `max = 1 << z`. -/
def Tile.valid (t : Tile) : Bool :=
  if t.z > 30 then false
  else
    let max := 1 <<< t.z
    decide (t.x < max) && decide (t.y < max)

/-- `operator==` on tiles (tile.hpp lines 121-123): all three attributes
equal. -/
def tileEq (lhs rhs : Tile) : Bool :=
  lhs.z == rhs.z && lhs.x == rhs.x && lhs.y == rhs.y

/-- `operator!=` on tiles (tile.hpp lines 125-127). -/
def tileNe (lhs rhs : Tile) : Bool :=
  ! (tileEq lhs rhs)

/-- `operator<` on tiles (tile.hpp lines 132-138): zoom first, then x, then
y. -/
def tileLt (lhs rhs : Tile) : Bool :=
  if lhs.z < rhs.z then true
  else if lhs.z > rhs.z then false
  else if lhs.x < rhs.x then true
  else if lhs.x > rhs.x then false
  else decide (lhs.y < rhs.y)

/-- The C++ `1 << z` at `int` width inside `valid()`, with its
undefinedness made explicit: shifting by 32 or more bits is undefined
behaviour (and already at 31 the signed result overflows), so the model
returns `none` there and the `uint32_t` value of the shift otherwise. -/
def shiftOneInt32 (amount : Nat) : Option Nat :=
  if amount ≥ 31 then none
  else some ((1 <<< amount) % 2 ^ 32)

/-- `Tile::valid()` re-read with the shift's partiality explicit: the code
returns `false` before the shift whenever `z > 30`, so the shift is only
evaluated with `z ≤ 30`. -/
def Tile.validChecked (t : Tile) : Option Bool :=
  if t.z > 30 then some false
  else
    match shiftOneInt32 t.z with
    | none => none
    | some max => some (decide (t.x < max) && decide (t.y < max))

/-! ### Basic characterisations -/

theorem valid_iff (t : Tile) :
    t.valid = true ↔ t.z ≤ 30 ∧ t.x < 2 ^ t.z ∧ t.y < 2 ^ t.z := by
  unfold Tile.valid
  by_cases h : t.z > 30
  · simp [h]
  · simp [h, Nat.shiftLeft_eq]
    omega

theorem tileEq_iff (a b : Tile) :
    tileEq a b = true ↔ (a.z = b.z ∧ a.x = b.x ∧ a.y = b.y) := by
  unfold tileEq
  simp [Bool.and_eq_true, beq_iff_eq]
  tauto

theorem tileLt_iff (a b : Tile) :
    tileLt a b = true ↔
      a.z < b.z ∨ (a.z = b.z ∧ (a.x < b.x ∨ (a.x = b.x ∧ a.y < b.y))) := by
  unfold tileLt
  split
  · simp; omega
  · split
    · simp; omega
    · split
      · simp; omega
      · split
        · simp; omega
        · simp; omega

/-! ### Properties of the clamp and the truncation -/

theorem restrict_nonneg (v hi : Int) (h : 0 ≤ hi) : 0 ≤ restrict_to_range v 0 hi := by
  unfold restrict_to_range
  split_ifs <;> omega

theorem restrict_le (v hi : Int) (h : 0 ≤ hi) : restrict_to_range v 0 hi ≤ hi := by
  unfold restrict_to_range
  split_ifs <;> omega

theorem restrict_mono {v w : Int} (hi : Int) (hhi : 0 ≤ hi) (h : v ≤ w) :
    restrict_to_range v 0 hi ≤ restrict_to_range w 0 hi := by
  unfold restrict_to_range
  split_ifs <;> omega

/-- Clamping to `[0, hi]` cannot tell truncation toward zero from flooring:
they differ only on negative non-integral inputs, where both clamp to `0`. -/
theorem restrict_ratTrunc_eq_floor (q : ℚ) (hi : Int) (h : 0 ≤ hi) :
    restrict_to_range (ratTrunc q) 0 hi = restrict_to_range ⌊q⌋ 0 hi := by
  unfold ratTrunc
  split_ifs with hq
  · rfl
  · have h1 : (⌈q⌉ : Int) ≤ 0 := Int.ceil_le.mpr (by exact_mod_cast le_of_not_le hq)
    have h2 : (⌊q⌋ : Int) ≤ ⌈q⌉ := Int.floor_le_ceil q
    unfold restrict_to_range
    split_ifs <;> omega

theorem ratTrunc_mono {q r : ℚ} (h : q ≤ r) : ratTrunc q ≤ ratTrunc r := by
  unfold ratTrunc
  split_ifs with h1 h2 h2
  · exact Int.floor_le_floor h
  · exact absurd (le_trans h1 h) h2
  · have ha : (⌈q⌉ : Int) ≤ 0 := Int.ceil_le.mpr (by exact_mod_cast le_of_not_le h1)
    have hb : (0 : Int) ≤ ⌊r⌋ := Int.floor_nonneg.mpr h2
    omega
  · exact Int.ceil_le_ceil h

theorem toNat_restrict_lt_pow (v : Int) (zoom : Nat) :
    (restrict_to_range v 0 ((2 : Int) ^ zoom - 1)).toNat < 2 ^ zoom := by
  have hp : ((2 : Int) ^ zoom) = ((2 ^ zoom : Nat) : Int) := by push_cast; ring
  have hpos : (0 : Int) < 2 ^ zoom := by positivity
  have h1 := restrict_le v ((2 : Int) ^ zoom - 1) (by omega)
  have h2 := restrict_nonneg v ((2 : Int) ^ zoom - 1) (by omega)
  rw [hp] at h1 h2 ⊢
  omega

theorem fromLocation_x_lt (zoom : Nat) (cx cy : ℚ) :
    (Tile.fromLocation zoom cx cy).x < 2 ^ zoom :=
  toNat_restrict_lt_pow _ zoom

theorem fromLocation_y_lt (zoom : Nat) (cx cy : ℚ) :
    (Tile.fromLocation zoom cx cy).y < 2 ^ zoom :=
  toNat_restrict_lt_pow _ zoom

/-! ### Claim theorems -/

/-- C2: `valid()` returns true iff `z ≤ 30` and `x < 2^z` and `y < 2^z`; in
particular it is false for every tile with `z > 30`.  (It is a pure Lean
function of the fields, hence side-effect free.) -/
theorem C2_valid_characterisation :
    (∀ t : Tile, t.valid = true ↔ t.z ≤ 30 ∧ t.x < 2 ^ t.z ∧ t.y < 2 ^ t.z)
    ∧ (∀ t : Tile, 30 < t.z → t.valid = false) := by
  constructor
  · exact valid_iff
  · intro t h
    unfold Tile.valid
    simp [h]

theorem C2_witness : Tile.valid { x := 0, y := 0, z := 31 } = false :=
  C2_valid_characterisation.2 { x := 0, y := 0, z := 31 } (by decide)

/-- C4 (as stated) is false: the claim omits the `zoom ≤ 30` precondition,
but `valid()` rejects any tile with `z > 30`.  At `zoom = 31`,
`column = row = 0 < 2^31`, the constructed tile is invalid. -/
theorem C4_counterexample :
    ¬ (∀ zoom col row : Nat, col < 2 ^ zoom → row < 2 ^ zoom →
        (Tile.ofCoords zoom col row).valid = true) := by
  intro h
  have h31 := h 31 0 0 (by positivity) (by positivity)
  simp [Tile.ofCoords, Tile.valid] at h31

/-- C4 (amended): with the documented precondition `zoom ≤ 30` added, a tile
built from explicit coordinates `column < 2^zoom`, `row < 2^zoom` is valid. -/
theorem C4_ofCoords_valid (zoom col row : Nat) (hz : zoom ≤ 30)
    (hc : col < 2 ^ zoom) (hr : row < 2 ^ zoom) :
    (Tile.ofCoords zoom col row).valid = true :=
  (valid_iff _).mpr ⟨hz, hc, hr⟩

theorem C4_witness :
    5 ≤ 30 ∧ 3 < 2 ^ 5 ∧ 7 < 2 ^ 5 ∧ (Tile.ofCoords 5 3 7).valid = true :=
  ⟨by decide, by decide, by decide, C4_ofCoords_valid 5 3 7 (by decide) (by decide) (by decide)⟩

/-- C5: under the asserted preconditions, the explicit-coordinate
constructor stores the three arguments verbatim into `x`, `y`, `z`. -/
theorem C5_ofCoords_verbatim (zoom tx ty : Nat)
    (hz : zoom ≤ 30) (hx : tx < 2 ^ zoom) (hy : ty < 2 ^ zoom) :
    (Tile.ofCoords zoom tx ty).x = tx ∧ (Tile.ofCoords zoom tx ty).y = ty
      ∧ (Tile.ofCoords zoom tx ty).z = zoom :=
  ⟨rfl, rfl, rfl⟩

theorem C5_witness :
    5 ≤ 30 ∧ 3 < 2 ^ 5 ∧ 7 < 2 ^ 5
    ∧ ((Tile.ofCoords 5 3 7).x = 3 ∧ (Tile.ofCoords 5 3 7).y = 7
        ∧ (Tile.ofCoords 5 3 7).z = 5) :=
  ⟨by decide, by decide, by decide,
    C5_ofCoords_verbatim 5 3 7 (by decide) (by decide) (by decide)⟩

/-- C6: tile equality is exactly field-wise, and is reflexive, symmetric and
transitive; tiles differing in any one field compare unequal (`!=` true). -/
theorem C6_equality_fieldwise :
    (∀ a b : Tile, tileEq a b = true ↔ (a.z = b.z ∧ a.x = b.x ∧ a.y = b.y))
    ∧ (∀ a : Tile, tileEq a a = true)
    ∧ (∀ a b : Tile, tileEq a b = true → tileEq b a = true)
    ∧ (∀ a b c : Tile, tileEq a b = true → tileEq b c = true → tileEq a c = true)
    ∧ (∀ a b : Tile, (a.z ≠ b.z ∨ a.x ≠ b.x ∨ a.y ≠ b.y) → tileNe a b = true) := by
  refine ⟨tileEq_iff, ?_, ?_, ?_, ?_⟩
  · intro a
    exact (tileEq_iff a a).mpr ⟨rfl, rfl, rfl⟩
  · intro a b h
    rcases (tileEq_iff a b).mp h with ⟨h1, h2, h3⟩
    exact (tileEq_iff b a).mpr ⟨h1.symm, h2.symm, h3.symm⟩
  · intro a b c hab hbc
    rcases (tileEq_iff a b).mp hab with ⟨h1, h2, h3⟩
    rcases (tileEq_iff b c).mp hbc with ⟨h4, h5, h6⟩
    exact (tileEq_iff a c).mpr ⟨h1.trans h4, h2.trans h5, h3.trans h6⟩
  · intro a b h
    unfold tileNe
    cases hEq : tileEq a b
    · rfl
    · rcases (tileEq_iff a b).mp hEq with ⟨h1, h2, h3⟩
      tauto

theorem C6_witness :
    tileEq { x := 3, y := 7, z := 5 } { x := 3, y := 7, z := 5 } = true
    ∧ tileNe { x := 3, y := 7, z := 5 } { x := 3, y := 8, z := 5 } = true :=
  ⟨C6_equality_fieldwise.2.1 { x := 3, y := 7, z := 5 },
    C6_equality_fieldwise.2.2.2.2 { x := 3, y := 7, z := 5 } { x := 3, y := 8, z := 5 }
      (Or.inr (Or.inr (by decide)))⟩

/-- C7: `operator<` is a strict total order with zoom as the primary key,
then x (column), then y (row): irreflexive, transitive, and total on
distinct tiles; the spec's two concrete comparisons hold. -/
theorem C7_strict_total_order :
    (∀ a : Tile, tileLt a a = false)
    ∧ (∀ a b c : Tile, tileLt a b = true → tileLt b c = true → tileLt a c = true)
    ∧ (∀ a b : Tile, a ≠ b → Xor' (tileLt a b = true) (tileLt b a = true))
    ∧ tileLt { x := 3, y := 7, z := 5 } { x := 3, y := 8, z := 5 } = true
    ∧ tileLt { x := 9, y := 9, z := 4 } { x := 0, y := 0, z := 5 } = true := by
  refine ⟨?_, ?_, ?_, by decide, by decide⟩
  · intro a
    rw [Bool.eq_false_iff]
    intro h
    rcases (tileLt_iff a a).mp h with h1 | ⟨_, h2 | ⟨_, h3⟩⟩ <;> omega
  · intro a b c hab hbc
    rw [tileLt_iff] at hab hbc ⊢
    omega
  · intro a b hne
    have hf : ¬ (a.z = b.z ∧ a.x = b.x ∧ a.y = b.y) := by
      rintro ⟨h1, h2, h3⟩
      apply hne
      cases a
      cases b
      simp_all
    simp only [Xor']
    rw [tileLt_iff, tileLt_iff]
    omega

theorem C7_witness :
    Xor' (tileLt { x := 9, y := 9, z := 4 } { x := 0, y := 0, z := 5 } = true)
      (tileLt { x := 0, y := 0, z := 5 } { x := 9, y := 9, z := 4 } = true) :=
  C7_strict_total_order.2.2.1 { x := 9, y := 9, z := 4 } { x := 0, y := 0, z := 5 }
    (by decide)

/-- C10: the shift `1 << z` in `valid()` is reached only after `z > 30` has
returned false, so its amount stays below the word size; with the shift's
partiality made explicit, `valid()` is total and agrees with the direct
model on every tile. -/
theorem C10_shift_guarded (t : Tile) : t.validChecked = some t.valid := by
  unfold Tile.validChecked Tile.valid shiftOneInt32
  by_cases h : t.z > 30
  · simp [h]
  · have h31 : ¬ t.z ≥ 31 := by omega
    have hm : (1 <<< t.z) % 4294967296 = 1 <<< t.z := by
      apply Nat.mod_eq_of_lt
      rw [Nat.shiftLeft_eq, one_mul, show (4294967296 : Nat) = 2 ^ 32 by norm_num]
      exact Nat.pow_lt_pow_right one_lt_two (by omega)
    simp [h, h31, hm]

/-- C1: for every zoom ≤ 30 and every valid location — i.e. planar
coordinates within the projected square `[-M, M] × [-M, M]` — the tile built
by the point-based constructor satisfies `valid() = true`. -/
theorem C1_fromLocation_valid (zoom : Nat) (cx cy : ℚ) (hz : zoom ≤ 30)
    (hx1 : -max_coordinate_epsg3857 ≤ cx) (hx2 : cx ≤ max_coordinate_epsg3857)
    (hy1 : -max_coordinate_epsg3857 ≤ cy) (hy2 : cy ≤ max_coordinate_epsg3857) :
    (Tile.fromLocation zoom cx cy).valid = true :=
  (valid_iff _).mpr ⟨hz, fromLocation_x_lt zoom cx cy, fromLocation_y_lt zoom cx cy⟩

theorem C1_witness :
    (2 ≤ 30 ∧ -max_coordinate_epsg3857 ≤ (0 : ℚ) ∧ (0 : ℚ) ≤ max_coordinate_epsg3857)
    ∧ (Tile.fromLocation 2 0 0).valid = true :=
  ⟨⟨by norm_num, by norm_num [max_coordinate_epsg3857], by norm_num [max_coordinate_epsg3857]⟩,
    C1_fromLocation_valid 2 0 0 (by norm_num) (by norm_num [max_coordinate_epsg3857])
      (by norm_num [max_coordinate_epsg3857]) (by norm_num [max_coordinate_epsg3857])
      (by norm_num [max_coordinate_epsg3857])⟩

/-- C3: the stored column and row agree with the spec's floor formulas
clamped into `[0, n-1]` (the code's truncation toward zero coincides with
flooring once clamped below at 0), and the row index is antitone in the
planar y coordinate, so row 0 is the northernmost row. -/
theorem C3_floor_formula (zoom : Nat) (cx cy : ℚ) (hz : zoom ≤ 30) :
    Tile.fromLocation zoom cx cy = Tile.fromLocationSpec zoom cx cy
    ∧ (∀ cy' : ℚ, cy ≤ cy' →
        (Tile.fromLocation zoom cx cy').y ≤ (Tile.fromLocation zoom cx cy).y) := by
  have hn : (0 : Int) < 2 ^ zoom := by positivity
  have hM : (0 : ℚ) < max_coordinate_epsg3857 := by norm_num [max_coordinate_epsg3857]
  have hnq : (0 : ℚ) < (((2 : Int) ^ zoom : Int) : ℚ) := by exact_mod_cast hn
  have hscale : (0 : ℚ) < max_coordinate_epsg3857 * 2 / (((2 : Int) ^ zoom : Int) : ℚ) :=
    div_pos (mul_pos hM two_pos) hnq
  constructor
  · simp only [Tile.fromLocation, Tile.fromLocationSpec, Tile.mk.injEq]
    refine ⟨?_, ?_, trivial⟩
    · rw [restrict_ratTrunc_eq_floor _ _ (by omega)]
      rw [mul_comm max_coordinate_epsg3857 2]
    · rw [restrict_ratTrunc_eq_floor _ _ (by omega)]
      rw [mul_comm max_coordinate_epsg3857 2]
  · intro cy' hle
    simp only [Tile.fromLocation]
    apply Int.toNat_le_toNat
    apply restrict_mono _ (by omega)
    apply ratTrunc_mono
    exact (div_le_div_iff_of_pos_right hscale).mpr (by linarith)

theorem C3_witness :
    1 ≤ 30 ∧ Tile.fromLocation 1 0 0 = Tile.fromLocationSpec 1 0 0
    ∧ (Tile.fromLocation 1 0 1).y ≤ (Tile.fromLocation 1 0 0).y :=
  ⟨by norm_num, (C3_floor_formula 1 0 0 (by norm_num)).1,
    (C3_floor_formula 1 0 0 (by norm_num)).2 1 (by norm_num)⟩

/-- C8: at zoom 0 every valid location lands in the single root tile
`(column = 0, row = 0, zoom = 0)`. -/
theorem C8_zoom_zero_root (cx cy : ℚ)
    (hx1 : -max_coordinate_epsg3857 ≤ cx) (hx2 : cx ≤ max_coordinate_epsg3857)
    (hy1 : -max_coordinate_epsg3857 ≤ cy) (hy2 : cy ≤ max_coordinate_epsg3857) :
    Tile.fromLocation 0 cx cy = { x := 0, y := 0, z := 0 } := by
  have h0 : ∀ v : Int, restrict_to_range v 0 ((2 : Int) ^ (0 : Nat) - 1) = 0 := by
    intro v
    unfold restrict_to_range
    simp only [pow_zero]
    split_ifs <;> omega
  simp only [Tile.fromLocation, h0]
  rfl

theorem C8_witness : Tile.fromLocation 0 0 0 = { x := 0, y := 0, z := 0 } :=
  C8_zoom_zero_root 0 0 (by norm_num [max_coordinate_epsg3857])
    (by norm_num [max_coordinate_epsg3857]) (by norm_num [max_coordinate_epsg3857])
    (by norm_num [max_coordinate_epsg3857])

/-- C9: a location exactly at the maximum projectable latitude (planar
`y = M`) yields row 0 at every zoom ≤ 30, which is inside `[0, 2^z - 1]`. -/
theorem C9_north_edge_row_zero (z : Nat) (cx : ℚ) (hz : z ≤ 30) :
    (Tile.fromLocation z cx max_coordinate_epsg3857).y = 0
    ∧ (Tile.fromLocation z cx max_coordinate_epsg3857).y < 2 ^ z := by
  have hn : (0 : Int) < 2 ^ z := by positivity
  have ht : ratTrunc 0 = 0 := by
    unfold ratTrunc
    norm_num
  have hr : restrict_to_range 0 0 ((2 : Int) ^ z - 1) = 0 := by
    unfold restrict_to_range
    split_ifs <;> omega
  have hy : (Tile.fromLocation z cx max_coordinate_epsg3857).y = 0 := by
    simp only [Tile.fromLocation, sub_self, zero_div, ht, hr, Int.toNat_zero]
  refine ⟨hy, ?_⟩
  rw [hy]
  positivity

theorem C9_witness :
    1 ≤ 30 ∧ ((Tile.fromLocation 1 0 max_coordinate_epsg3857).y = 0
      ∧ (Tile.fromLocation 1 0 max_coordinate_epsg3857).y < 2 ^ 1) :=
  ⟨by norm_num, C9_north_edge_row_zero 1 0 (by norm_num)⟩

end OsmiumGeom
